import Mathlib

/-!
Shallow embedding of the walleth hierarchical key-custody library.

Bytes are modelled as `List Nat` (each element intended `< 256`; the
operations that depend on the 8-bit range, such as the `u8` length cast,
check the bound explicitly exactly where the source does).

External collaborators (the XChaCha20-Poly1305 AEAD and PBKDF2) are
modelled as explicit parameters, mirroring the spec's statement that they
are specified only through the interfaces the core depends on.  The
operating-system CSPRNG is modelled as an explicit entropy stream
(`List Nat`) that is consumed by the operations that draw random bytes.

Rust computations that can panic (out-of-bounds indexing, arithmetic
underflow on `usize`, `Option::unwrap`) are modelled with the `PResult`
type, which distinguishes a normal error return from a panic.
-/

set_option maxRecDepth 4000

/-- Outcome of a Rust computation: success, a returned error, or a panic
(out-of-bounds indexing, underflow, `unwrap` on `Err`/`None`). -/
inductive PResult (ε : Type) (α : Type) where
  | ok (a : α)
  | err (e : ε)
  | panicked
  deriving DecidableEq, Repr

/-- Draw `n` bytes from the entropy stream (the OS CSPRNG always returns
the requested number of bytes).  Returns the drawn bytes and the rest of
the stream. -/
def draw (n : Nat) (ent : List Nat) : List Nat × List Nat :=
  (ent.take n ++ List.replicate (n - ent.length) 0, ent.drop n)

/-- Rust slice `l[a..b]` (meaningful when `a ≤ b ≤ l.length`; the callers
below check the bounds exactly where the source indexes can panic). -/
def sliceList (l : List Nat) (a b : Nat) : List Nat :=
  (l.drop a).take (b - a)

/-- Errors of the `safe` crate (`SafeError` in `errors.rs`). -/
inductive SafeError where
  | Serialization (msg : String)
  | Deserialization (msg : String)
  deriving DecidableEq, Repr

/-- The XChaCha20-Poly1305 AEAD collaborator: `enc key nonce plaintext`
returns the ciphertext (with tag); `dec key nonce ciphertext` returns the
plaintext, or `none` when authentication fails.  The source's
`ChaCha20Poly1305Cipher` wraps this primitive; its only failure mode for a
well-typed 32-byte key is tag verification failure on decrypt. -/
structure AEAD where
  enc : List Nat → List Nat → List Nat → List Nat
  dec : List Nat → List Nat → List Nat → Option (List Nat)

/-- The PBKDF2-HMAC-SHA256 collaborator: `kdf password salt rounds`
returns the 32-byte derived key. -/
abbrev KDF := List Nat → List Nat → Nat → List Nat

/-- `Safe<T>` from `safe.rs`: plaintext metadata, encrypted bytes and a
24-byte nonce. -/
structure Safe (α : Type) where
  metadata : α
  encrypted_bytes : List Nat
  nonce : List Nat
  deriving DecidableEq, Repr

/-- `Safe::from_plain_bytes`: encrypt `plain_bytes` under `key` with a
freshly drawn 24-byte nonce (drawn from the entropy stream, as
`ChaCha20Poly1305Cipher::encrypt` draws it from `OsRng`). -/
def Safe.from_plain_bytes (A : AEAD) (metadata : α) (key : List Nat)
    (plain_bytes : List Nat) (ent : List Nat) : Safe α × List Nat :=
  let (nonce, ent') := draw 24 ent
  (⟨metadata, A.enc key nonce plain_bytes, nonce⟩, ent')

/-- `Safe::decrypt`: run the AEAD in decrypt mode with the stored nonce. -/
def Safe.decrypt (A : AEAD) (s : Safe α) (key : List Nat) : Option (List Nat) :=
  A.dec key s.nonce s.encrypted_bytes

/-- `impl From<Safe<T>> for Vec<u8>`: layout
`[metadata_len][metadata][encrypted_bytes][nonce]`.  The length byte is
`u8::try_from(metadata_bytes.len()).unwrap()`, which panics when the
metadata serializes to more than 255 bytes.  `mInto` is the `Into<Vec<u8>>`
bound on the metadata type. -/
def Safe.toBytes (mInto : α → List Nat) (s : Safe α) : PResult SafeError (List Nat) :=
  let metadata_bytes := mInto s.metadata
  if metadata_bytes.length ≤ 255 then
    .ok (metadata_bytes.length :: (metadata_bytes ++ s.encrypted_bytes ++ s.nonce))
  else
    .panicked

/-- `impl TryFrom<Vec<u8>> for Safe<T>`: read `metadata_len = bytes[0]`
(panics on an empty vector), slice the metadata (panics when the declared
metadata overruns the vector), convert it with `T::try_from` (`mFrom`;
failure is reported as `Deserialization`), then slice
`bytes[metadata_len+1 .. len-24]` and the trailing 24-byte nonce (the
`len - 24` computation underflows, and the slice panics, when the vector
is too short).  The final nonce-length check mirrors the source's
`try_into` for `[u8; 24]`. -/
def Safe.tryFrom (mFrom : List Nat → Option α) (bytes : List Nat) :
    PResult SafeError (Safe α) :=
  if bytes.length = 0 then .panicked
  else
    let metadata_len := bytes.headD 0
    if bytes.length < metadata_len + 1 then .panicked
    else
      match mFrom (sliceList bytes 1 (metadata_len + 1)) with
      | none => .err (.Deserialization "error deserializing metadata")
      | some metadata =>
        if bytes.length < 24 then .panicked
        else if bytes.length - 24 < metadata_len + 1 then .panicked
        else
          let encrypted_bytes := sliceList bytes (metadata_len + 1) (bytes.length - 24)
          let nonce := sliceList bytes (bytes.length - 24) bytes.length
          if nonce.length = 24 then .ok ⟨metadata, encrypted_bytes, nonce⟩
          else .err (.Deserialization "unexpected bytes length")

/-- The `Into<Vec<u8>>` conversion of the `[u8; 16]` salt metadata used by
`Vault` (`to_vec`). -/
def saltInto (salt : List Nat) : List Nat := salt

/-- The `TryFrom<Vec<u8>>` conversion of the `[u8; 16]` salt metadata used
by `Vault` (succeeds exactly on 16-byte vectors). -/
def saltFrom (bytes : List Nat) : Option (List Nat) :=
  if bytes.length = 16 then some bytes else none

/-- Errors of the `vault` crate (`VaultError` in `errors.rs`).  The
`IdentityError(Box<dyn IdentityError>)` payload is modelled by its
display string. -/
inductive VaultError where
  | ForbiddenWhileLocked
  | ForbiddenWhileUnlocked
  | AccountCreation
  | InvalidPassword
  | InvalidMnemonic
  | IdentityError (msg : String)
  | SignerCreation
  | KeyDerivation
  | AlreadyUnlocked
  | VaultRestoreFromBytes (msg : String)
  | SafeCreation
  | SafeDecrypt
  | SafeExport (msg : String)
  | SafeRestore (msg : String)
  deriving DecidableEq, Repr

/-- `impl From<SafeError> for VaultError`. -/
def VaultError.fromSafe : SafeError → VaultError
  | .Serialization msg => .SafeExport msg
  | .Deserialization msg => .SafeRestore msg

/-- `EncryptionKey` from `encryption_key.rs`: a PBKDF2-derived 32-byte key
together with its 16-byte salt. -/
structure EncryptionKey where
  pubk : List Nat
  salt : List Nat
  deriving DecidableEq, Repr

/-- `EncryptionKey::new`: draw a fresh 16-byte salt from the CSPRNG and
derive `pubk = PBKDF2-HMAC-SHA256(password, salt, rounds, 32)`. -/
def EncryptionKey.new (kdf : KDF) (password : List Nat) (rounds : Nat)
    (ent : List Nat) : EncryptionKey × List Nat :=
  let (salt, ent') := draw 16 ent
  (⟨kdf password salt rounds, salt⟩, ent')

/-- `EncryptionKey::with_salt`: deterministic re-derivation used on unlock. -/
def EncryptionKey.with_salt (kdf : KDF) (password salt : List Nat)
    (rounds : Nat) : EncryptionKey :=
  ⟨kdf password salt rounds, salt⟩

/-- `HDKey` from `hdkey.rs`: a seed-based identity carrying raw seed
bytes. -/
structure HDKey where
  seed : List Nat
  deriving DecidableEq, Repr

/-- `GenericIdentity::serialize` for `HDKey`: the seed bytes verbatim. -/
def HDKey.serialize (h : HDKey) : List Nat := h.seed

/-- `GenericIdentity::deserialize` for `HDKey`: replace the seed with the
given bytes (always succeeds). -/
def HDKey.deserialize (_h : HDKey) (bytes : List Nat) : HDKey := ⟨bytes⟩

/-- `Initializable::new` for `HDKey` draws a random seed from a fresh
mnemonic.  On every path of the core the fresh seed is immediately
overwritten by `deserialize`, so the drawn value is unobservable; it is
modelled as the empty seed. -/
def HDKey.initNew : HDKey := ⟨[]⟩

/-- `Vault<T>` from `vault.rs` at `T = HDKey`: two independent options
carrying the invariant that exactly one is present.  The safe's metadata
is the 16-byte encryption salt. -/
structure Vault where
  identity : Option HDKey
  safe : Option (Safe (List Nat))
  deriving DecidableEq, Repr

/-- `Vault::is_unlocked`: the vault is unlocked when no safe is present. -/
def Vault.is_unlocked (v : Vault) : Bool := v.safe.isNone

/-- `Vault::lock`: when an identity is present, derive a fresh
`EncryptionKey` (fresh random salt), seal the serialized identity into a
safe whose metadata is the salt, and drop the identity; when no identity
is present, succeed as a no-op. -/
def Vault.lock (A : AEAD) (kdf : KDF) (v : Vault) (password : List Nat)
    (ent : List Nat) : Except VaultError Unit × Vault × List Nat :=
  match v.identity with
  | some identity =>
    let (encryption_key, ent') := EncryptionKey.new kdf password 1000 ent
    let (safe, ent'') :=
      Safe.from_plain_bytes A encryption_key.salt encryption_key.pubk
        identity.serialize ent'
    (.ok (), ⟨none, some safe⟩, ent'')
  | none => (.ok (), v, ent)

/-- `Vault::unlock`: when a safe is present, re-derive the key from the
stored salt, decrypt (failure is `SafeDecrypt` and leaves the vault
untouched), recreate the identity from the recovered bytes
(`T::new()` followed by `deserialize`), and drop the safe; when no safe
is present, fail with `AlreadyUnlocked`. -/
def Vault.unlock (A : AEAD) (kdf : KDF) (v : Vault) (password : List Nat) :
    Except VaultError Unit × Vault :=
  match v.safe with
  | some safe =>
    let encryption_key := EncryptionKey.with_salt kdf password safe.metadata 1000
    match Safe.decrypt A safe encryption_key.pubk with
    | none => (.error .SafeDecrypt, v)
    | some recovered_seed =>
      (.ok (), ⟨some (HDKey.initNew.deserialize recovered_seed), none⟩)
  | none => (.error .AlreadyUnlocked, v)

/-- `Vault::to_bytes`: serialize the safe when locked, else fail with
`ForbiddenWhileUnlocked`. -/
def Vault.to_bytes (v : Vault) : PResult VaultError (List Nat) :=
  match v.safe with
  | some safe =>
    match Safe.toBytes saltInto safe with
    | .ok bytes => .ok bytes
    | .err e => .err (VaultError.fromSafe e)
    | .panicked => .panicked
  | none => .err .ForbiddenWhileUnlocked

/-- `impl TryFrom<Vec<u8>> for Vault<T>`: parse a safe from the bytes and
construct a locked vault (no decryption attempted). -/
def Vault.tryFrom (bytes : List Nat) : PResult VaultError Vault :=
  match Safe.tryFrom saltFrom bytes with
  | .ok safe => .ok ⟨none, some safe⟩
  | .err e => .err (VaultError.fromSafe e)
  | .panicked => .panicked

/-- `ObservableError` from the `utils` crate. -/
inductive ObservableError where
  | UnableToLockObserver
  deriving DecidableEq, Repr

/-- `Observable<S>` from `observable.rs`: a state plus the registered
observers.  Callbacks are opaque side-effects that cannot change the
state (they receive a read-only view), so only the observer ids are
modelled. -/
structure Observable (σ : Type) where
  state : σ
  observers : List Nat
  deriving DecidableEq, Repr

/-- `Observable::new`: initial state, no observers. -/
def Observable.new (initial_state : σ) : Observable σ :=
  ⟨initial_state, []⟩

/-- `Observable::subscribe`: push an observer whose id is the current
observer count (`Observer::new(self.observers.len(), ..)`) and return
`self.observers.len() - 1` after the push, i.e. that same count. -/
def Observable.subscribe (o : Observable σ) : Nat × Observable σ :=
  (o.observers.length, ⟨o.state, o.observers ++ [o.observers.length]⟩)

/-- `Observable::unsubscribe`: retain every observer whose id differs
from the given one. -/
def Observable.unsubscribe (o : Observable σ) (id : Nat) : Observable σ :=
  ⟨o.state, o.observers.filter (fun observer => observer ≠ id)⟩

/-- `Observable::update`: apply the updater to the state, then emit the
new state to every observer.  Emission only invokes callbacks on a
read-only view (its `UnableToLockObserver` failure arises from a
poisoned mutex, i.e. from a panicking listener on another thread, which
is outside this single-threaded model). -/
def Observable.update (o : Observable σ) (updater : σ → σ) :
    Except ObservableError Unit × Observable σ :=
  (.ok (), ⟨updater o.state, o.observers⟩)

/-- `Account<T>` from `account.rs` at `T = usize`: a public record of an
address string, a serialized public key and a derivation path. -/
structure Account where
  address : String
  public_key : List Nat
  path : Nat
  deriving DecidableEq, Repr

/-- `KeychainState`: the observable projection, an ordered accounts
list. -/
structure KeychainState where
  accounts : List Account
  deriving DecidableEq, Repr

/-- `KeyPair` from `keychain.rs`: a tagged variant wrapping a vault; the
only defined variant is `MultiKeyPair` (tag byte `0x00`). -/
inductive KeyPair where
  | MultiKeyPair (vault : Vault)
  deriving DecidableEq, Repr

/-- The vault wrapped by a key pair. -/
def KeyPair.vault : KeyPair → Vault
  | .MultiKeyPair v => v

/-- Errors of the `keychain` crate (`KeychainError` in `errors.rs`). -/
inductive KeychainError where
  | VaultError (e : VaultError)
  | KeyNotFoundForAddress (address : String)
  | EventEmitterError (e : ObservableError)
  | KeyNotFoundForIndex (index : Nat)
  | ByteSerializationError
  | ByteDeserializationError (msg : String)
  deriving DecidableEq, Repr

/-- `Keychain`: an ordered collection of key pairs plus an observable
state. -/
structure Keychain where
  key_pairs : List KeyPair
  store : Observable KeychainState
  deriving DecidableEq, Repr

/-- `Keychain::new`: empty collection, empty state. -/
def Keychain.new : Keychain :=
  ⟨[], Observable.new ⟨[]⟩⟩

/-- `Keychain::add_key_pair`: append an existing key pair. -/
def Keychain.add_key_pair (k : Keychain) (key_pair : KeyPair) : Keychain :=
  { k with key_pairs := k.key_pairs ++ [key_pair] }

/-- The `try_for_each` sweep of `Keychain::lock` over the vaults: lock
each vault in insertion order, stopping at the first error (the already
processed prefix keeps its new state). -/
def Keychain.lockVaults (A : AEAD) (kdf : KDF) :
    List KeyPair → List Nat → List Nat →
    Except VaultError Unit × List KeyPair × List Nat
  | [], _, ent => (.ok (), [], ent)
  | .MultiKeyPair vault :: rest, password, ent =>
    match Vault.lock A kdf vault password ent with
    | (.ok _, vault', ent') =>
      let (r, rest', ent'') := Keychain.lockVaults A kdf rest password ent'
      (r, .MultiKeyPair vault' :: rest', ent'')
    | (.error e, vault', ent') => (.error e, .MultiKeyPair vault' :: rest, ent')

/-- The `try_for_each` sweep of `Keychain::unlock` over the vaults. -/
def Keychain.unlockVaults (A : AEAD) (kdf : KDF) :
    List KeyPair → List Nat → Except VaultError Unit × List KeyPair
  | [], _ => (.ok (), [])
  | .MultiKeyPair vault :: rest, password =>
    match Vault.unlock A kdf vault password with
    | (.ok _, vault') =>
      let (r, rest') := Keychain.unlockVaults A kdf rest password
      (r, .MultiKeyPair vault' :: rest')
    | (.error e, vault') => (.error e, .MultiKeyPair vault' :: rest)

/-- `Keychain::lock`: set the observable state to an empty accounts list,
then lock every vault in insertion order with the given password. -/
def Keychain.lock (A : AEAD) (kdf : KDF) (k : Keychain) (password : List Nat)
    (ent : List Nat) : Except KeychainError Unit × Keychain × List Nat :=
  let (updateRes, store') := k.store.update (fun state => { state with accounts := [] })
  match updateRes with
  | .error e => (.error (.EventEmitterError e), { k with store := store' }, ent)
  | .ok _ =>
    let (r, kps', ent') := Keychain.lockVaults A kdf k.key_pairs password ent
    match r with
    | .ok _ => (.ok (), ⟨kps', store'⟩, ent')
    | .error e => (.error (.VaultError e), ⟨kps', store'⟩, ent')

/-- `Keychain::unlock`: unlock every vault in insertion order; the store
is not touched (accounts are not repopulated). -/
def Keychain.unlock (A : AEAD) (kdf : KDF) (k : Keychain) (password : List Nat) :
    Except KeychainError Unit × Keychain :=
  let (r, kps') := Keychain.unlockVaults A kdf k.key_pairs password
  match r with
  | .ok _ => (.ok (), { k with key_pairs := kps' })
  | .error e => (.error (.VaultError e), { k with key_pairs := kps' })

/-- The first pass of `Keychain::backup`: map every key pair, in order,
to `(0u8, vault_bytes)`.  An unlocked vault is transiently locked with
the password, serialized and unlocked again; a locked vault is
serialized directly.  The `collect::<Result<..>>` stops at the first
error, leaving the remaining vaults untouched. -/
def Keychain.backupPass1 (A : AEAD) (kdf : KDF) :
    List KeyPair → List Nat → List Nat →
    PResult VaultError (List (Nat × List Nat)) × List KeyPair × List Nat
  | [], _, ent => (.ok [], [], ent)
  | .MultiKeyPair vault :: rest, password, ent =>
    if vault.is_unlocked then
      match Vault.lock A kdf vault password ent with
      | (.error e, vault', ent') => (.err e, .MultiKeyPair vault' :: rest, ent')
      | (.ok _, vault', ent') =>
        match vault'.to_bytes with
        | .panicked => (.panicked, .MultiKeyPair vault' :: rest, ent')
        | .err e => (.err e, .MultiKeyPair vault' :: rest, ent')
        | .ok bytes =>
          match Vault.unlock A kdf vault' password with
          | (.error e, vault'') => (.err e, .MultiKeyPair vault'' :: rest, ent')
          | (.ok _, vault'') =>
            match Keychain.backupPass1 A kdf rest password ent' with
            | (.ok pairs, rest', ent'') =>
              (.ok ((0, bytes) :: pairs), .MultiKeyPair vault'' :: rest', ent'')
            | (.err e, rest', ent'') => (.err e, .MultiKeyPair vault'' :: rest', ent'')
            | (.panicked, rest', ent'') => (.panicked, .MultiKeyPair vault'' :: rest', ent'')
    else
      match vault.to_bytes with
      | .panicked => (.panicked, .MultiKeyPair vault :: rest, ent)
      | .err e => (.err e, .MultiKeyPair vault :: rest, ent)
      | .ok bytes =>
        match Keychain.backupPass1 A kdf rest password ent with
        | (.ok pairs, rest', ent') =>
          (.ok ((0, bytes) :: pairs), .MultiKeyPair vault :: rest', ent')
        | (.err e, rest', ent') => (.err e, .MultiKeyPair vault :: rest', ent')
        | (.panicked, rest', ent') => (.panicked, .MultiKeyPair vault :: rest', ent')

/-- The second pass of `Keychain::backup`: frame each pair as
`[inner_bytes_len][keypair_type][inner_bytes]`, failing with
`ByteSerializationError` when a vault blob exceeds 255 bytes
(`u8::try_from` on the length). -/
def Keychain.condense : List (Nat × List Nat) → Except KeychainError (List Nat)
  | [] => .ok []
  | (vault_type, bytes) :: rest =>
    if bytes.length ≤ 255 then
      match Keychain.condense rest with
      | .ok out => .ok ((bytes.length :: vault_type :: bytes) ++ out)
      | .error e => .error e
    else .error .ByteSerializationError

/-- `Keychain::backup`: first pass then framing. -/
def Keychain.backup (A : AEAD) (kdf : KDF) (k : Keychain) (password : List Nat)
    (ent : List Nat) : PResult KeychainError (List Nat) × Keychain × List Nat :=
  match Keychain.backupPass1 A kdf k.key_pairs password ent with
  | (.err e, kps', ent') => (.err (.VaultError e), { k with key_pairs := kps' }, ent')
  | (.panicked, kps', ent') => (.panicked, { k with key_pairs := kps' }, ent')
  | (.ok pairs, kps', ent') =>
    match Keychain.condense pairs with
    | .ok bytes => (.ok bytes, { k with key_pairs := kps' }, ent')
    | .error e => (.err e, { k with key_pairs := kps' }, ent')

/-- The parsing loop of `Keychain::restore`: while bytes remain, read
`length = bytes[0]` and `key_pair_type = bytes[1]` (panicking when the
vector is too short for the indexing), accept only tag `0`, parse
`bytes[2..length+2]` as a locked vault, and continue with
`bytes[length+2..]`. -/
def Keychain.parseFramesGo : Nat → List Nat → PResult KeychainError (List KeyPair)
  | 0, bytes => if bytes.length = 0 then .ok [] else .panicked
  | fuel' + 1, bytes =>
    if bytes.length = 0 then .ok []
    else
      let length := bytes.headD 0
      if bytes.length < 2 then .panicked
      else
        let key_pair_type := (bytes.drop 1).headD 0
        if key_pair_type = 0 then
          if bytes.length < length + 2 then .panicked
          else
            match Vault.tryFrom (sliceList bytes 2 (length + 2)) with
            | .panicked => .panicked
            | .err e => .err (.VaultError e)
            | .ok vault =>
              match Keychain.parseFramesGo fuel' (bytes.drop (length + 2)) with
              | .ok key_pairs => .ok (.MultiKeyPair vault :: key_pairs)
              | .err e => .err e
              | .panicked => .panicked
        else .err (.ByteDeserializationError "Unsupported key pair type")

/-- The parsing loop proper: the fuel starts at the byte count, and since
every iteration consumes at least two bytes the fuel is never exhausted
(the `fuel = 0` branch above is unreachable; see
`Keychain.parseFramesGo_fuel`). -/
def Keychain.parseFrames (bytes : List Nat) : PResult KeychainError (List KeyPair) :=
  Keychain.parseFramesGo bytes.length bytes

/-- `Keychain::restore`: parse the framed stream into locked key pairs,
then unlock the whole keychain with the password. -/
def Keychain.restore (A : AEAD) (kdf : KDF) (backup password : List Nat) :
    PResult KeychainError Keychain :=
  match Keychain.parseFrames backup with
  | .panicked => .panicked
  | .err e => .err e
  | .ok key_pairs =>
    let keychain : Keychain := ⟨key_pairs, Observable.new ⟨[]⟩⟩
    match Keychain.unlock A kdf keychain password with
    | (.ok _, k') => .ok k'
    | (.error e, _) => .err e

/-- All 64-bit ones, used to model bitwise complement on `u64`. -/
def mask64 : Nat := 2 ^ 64 - 1

/-- Rotate a 64-bit word left by `n` bits (`n < 64`). -/
def rotl64 (x n : Nat) : Nat :=
  ((x <<< n) ||| (x >>> (64 - n))) % 2 ^ 64

/-- Keccak round constants. -/
def keccakRC : List Nat :=
  [0x0000000000000001, 0x0000000000008082, 0x800000000000808a, 0x8000000080008000,
   0x000000000000808b, 0x0000000080000001, 0x8000000080008081, 0x8000000000008009,
   0x000000000000008a, 0x0000000000000088, 0x0000000080008009, 0x000000008000000a,
   0x000000008000808b, 0x800000000000008b, 0x8000000000008089, 0x8000000000008003,
   0x8000000000008002, 0x8000000000000080, 0x000000000000800a, 0x800000008000000a,
   0x8000000080008081, 0x8000000000008080, 0x0000000080000001, 0x8000000080008008]

/-- Keccak rotation offsets, indexed by lane position `x + 5 * y` (rows
`y = 0` to `y = 4`). -/
def keccakRho : List Nat :=
  [0, 1, 62, 28, 27] ++ [36, 44, 6, 55, 20] ++ [3, 10, 43, 25, 39] ++
    [41, 45, 15, 21, 8] ++ [18, 2, 61, 56, 14]

/-- One Keccak-f[1600] round on a 25-lane state (lane `(x, y)` at index
`x + 5 * y`). -/
def keccakRound (A : List Nat) (rc : Nat) : List Nat :=
  let get := fun (x y : Nat) => A.getD (x % 5 + 5 * (y % 5)) 0
  let C := (List.range 5).map
    (fun x => get x 0 ^^^ get x 1 ^^^ get x 2 ^^^ get x 3 ^^^ get x 4)
  let Cat := fun (x : Nat) => C.getD (x % 5) 0
  let D := (List.range 5).map (fun x => Cat (x + 4) ^^^ rotl64 (Cat (x + 1)) 1)
  let A1 := (List.range 25).map (fun i => A.getD i 0 ^^^ D.getD (i % 5) 0)
  let get1 := fun (x y : Nat) => A1.getD (x % 5 + 5 * (y % 5)) 0
  let B := (List.range 25).map (fun i =>
    let x := i % 5
    let y := i / 5
    let sx := (x + 3 * y) % 5
    let sy := x
    rotl64 (get1 sx sy) (keccakRho.getD (sx + 5 * sy) 0))
  let getB := fun (x y : Nat) => B.getD (x % 5 + 5 * (y % 5)) 0
  let A2 := (List.range 25).map (fun i =>
    let x := i % 5
    let y := i / 5
    getB x y ^^^ ((getB (x + 1) y ^^^ mask64) &&& getB (x + 2) y))
  match A2 with
  | a0 :: restLanes => (a0 ^^^ rc) :: restLanes
  | [] => []

/-- The full Keccak-f[1600] permutation: 24 rounds. -/
def keccakF (A : List Nat) : List Nat :=
  keccakRC.foldl keccakRound A

/-- Multi-rate padding for Keccak-256 (rate 136, domain byte `0x01`). -/
def keccakPad (msg : List Nat) : List Nat :=
  let padLen := 136 - msg.length % 136
  if padLen = 1 then msg ++ [0x81]
  else msg ++ [0x01] ++ List.replicate (padLen - 2) 0 ++ [0x80]

/-- Interpret 8 bytes (little-endian) as a 64-bit lane. -/
def bytesToLane (bs : List Nat) : Nat :=
  bs.foldr (fun b acc => b % 256 + 256 * acc) 0

/-- Absorb one 136-byte block into the state and permute. -/
def keccakAbsorbBlock (st block : List Nat) : List Nat :=
  keccakF ((List.range 25).map (fun i =>
    st.getD i 0 ^^^ (if i < 17 then bytesToLane (sliceList block (8 * i) (8 * i + 8)) else 0)))

/-- Keccak-256 of a byte list: pad, absorb the 136-byte blocks in order,
squeeze the first 32 bytes of the state (little-endian lanes).  This is
the `keccak256` collaborator from `utils/crypto/sha3.rs` (the `sha3`
crate's `Keccak256`). -/
def keccak256 (data : List Nat) : List Nat :=
  let padded := keccakPad data
  let st := (List.range (padded.length / 136)).foldl
    (fun st k => keccakAbsorbBlock st (sliceList padded (136 * k) (136 * k + 136)))
    (List.replicate 25 0)
  (List.range 32).map (fun i => (st.getD (i / 8) 0 >>> (8 * (i % 8))) % 256)

/-- `HexError` from `utils/hex/hex.rs`. -/
inductive HexError where
  | InvalidHex
  | InvalidHexLength
  | InvalidHexAddress
  deriving DecidableEq, Repr

/-- `AccountError` from the `identity` crate. -/
inductive AccountError where
  | InvalidHexAddress
  | InvalidKeyLength
  | InvalidPrivateKey
  deriving DecidableEq, Repr

/-- `HDKeyError` from the `hdkey` crate. -/
inductive HDKeyError where
  | GenericError
  | WrongDerivationPath
  | InvalidMnemonic
  | InvalidSignature
  | InvalidPrivateKey
  deriving DecidableEq, Repr

/-- One lowercase hex digit (`0-9a-f`) for a value below 16. -/
def hexDigitChar (n : Nat) : Char :=
  if n < 10 then Char.ofNat (48 + n) else Char.ofNat (87 + n)

/-- `hex::encode`: lowercase hex, two characters per byte. -/
def hexEncodeChars (bs : List Nat) : List Char :=
  bs.flatMap (fun b => [hexDigitChar (b % 256 / 16), hexDigitChar (b % 16)])

/-- Value of a hex character (`hex::decode` accepts both cases). -/
def hexCharVal (c : Char) : Option Nat :=
  if 48 ≤ c.toNat ∧ c.toNat ≤ 57 then some (c.toNat - 48)
  else if 97 ≤ c.toNat ∧ c.toNat ≤ 102 then some (c.toNat - 87)
  else if 65 ≤ c.toNat ∧ c.toNat ≤ 70 then some (c.toNat - 55)
  else none

/-- `hex::decode`: fails on odd length or a non-hex character. -/
def hexDecodeChars : List Char → Option (List Nat)
  | [] => some []
  | [_] => none
  | c1 :: c2 :: rest =>
    match hexCharVal c1, hexCharVal c2, hexDecodeChars rest with
    | some hi, some lo, some bs => some ((16 * hi + lo) :: bs)
    | _, _, _ => none

/-- `remove0x`: strip a leading `0x` when present. -/
def remove0xChars (value : List Char) : List Char :=
  match value with
  | '0' :: 'x' :: rest => rest
  | _ => value

/-- `add0x`: prepend `0x` unless already present. -/
def add0xChars (value : List Char) : List Char :=
  match value with
  | '0' :: 'x' :: _ => value
  | _ => '0' :: 'x' :: value

/-- `assert_is_valid_hex_address`: strip any `0x`, require hex
decodability, then require exactly 40 characters. -/
def assert_is_valid_hex_address (value : List Char) : Except HexError Unit :=
  let unprefixed := remove0xChars value
  match hexDecodeChars unprefixed with
  | none => .error .InvalidHex
  | some _ =>
    if unprefixed.length ≠ 40 then .error .InvalidHexLength
    else .ok ()

/-- A SECP256K1 public key as an affine point; the `secp256k1`
collaborator guarantees the standard SEC1 encodings. -/
structure PubKeyPoint where
  x : Nat
  y : Nat
  deriving DecidableEq, Repr

/-- Big-endian 32-byte encoding of a coordinate. -/
def be32 (n : Nat) : List Nat :=
  (List.range 32).map (fun i => (n >>> (8 * (31 - i))) % 256)

/-- `PublicKey::serialize`: the 33-byte compressed SEC1 encoding
(`02`/`03` parity prefix plus the x coordinate). -/
def PubKeyPoint.serialize (p : PubKeyPoint) : List Nat :=
  (if p.y % 2 = 0 then 2 else 3) :: be32 p.x

/-- `PublicKey::serialize_uncompressed`: the 65-byte uncompressed SEC1
encoding (`04` prefix, x coordinate, y coordinate). -/
def PubKeyPoint.serialize_uncompressed (p : PubKeyPoint) : List Nat :=
  4 :: (be32 p.x ++ be32 p.y)

/-- `Account::from_public_key` from `account.rs`: hex-encode the
Keccak-256 of `public_key.serialize()`, keep the last 40 characters,
check them as a hex address, and store them `0x`-prefixed together with
the serialized public key. -/
def Account.from_public_key (public_key : PubKeyPoint) (path : Nat) :
    Except AccountError Account :=
  let extended_address := hexEncodeChars (keccak256 public_key.serialize)
  let address := extended_address.drop (extended_address.length - 40)
  match assert_is_valid_hex_address address with
  | .error _ => .error .InvalidHexAddress
  | .ok _ =>
    .ok ⟨String.mk (add0xChars address), public_key.serialize, path⟩

/-- `HDKey::account_at` from `hdkey.rs`, parametrized by the BIP-32 +
SECP256K1 derivation collaborator (`keypair_at_path` at account 0,
change 0): derivation failure and account-construction failure are both
reported as `WrongDerivationPath`. -/
def HDKey.account_at (derive : List Nat → Nat → Option PubKeyPoint)
    (h : HDKey) (index : Nat) : Except HDKeyError Account :=
  match derive h.seed index with
  | none => .error .WrongDerivationPath
  | some public_key =>
    match Account.from_public_key public_key index with
    | .ok account => .ok account
    | .error _ => .error .WrongDerivationPath

/-- The address the specification describes: `0x` plus the lowercase hex
of the last 20 bytes of the Keccak-256 of the given serialization of the
public key.  Used to compare the code's address against the spec's two
candidate serializations (compressed vs uncompressed). -/
def specAddressOfSerialization (serialization : List Nat) : String :=
  String.mk ('0' :: 'x' :: hexEncodeChars ((keccak256 serialization).drop 12))

/-- An operation in a subscribe/unsubscribe trace on an `Observable`. -/
inductive ObsOp where
  | subscribeOp
  | unsubscribeOp (id : Nat)
  deriving DecidableEq, Repr

/-- Run a subscribe/unsubscribe trace, collecting the ids returned by
the subscribe calls in order. -/
def Observable.runOps (o : Observable σ) : List ObsOp → Observable σ × List Nat
  | [] => (o, [])
  | .subscribeOp :: rest =>
    let (id, o') := o.subscribe
    let (o'', ids) := Observable.runOps o' rest
    (o'', id :: ids)
  | .unsubscribeOp id :: rest => Observable.runOps (o.unsubscribe id) rest

/-- The SECP256K1 generator point, a concrete valid public key used to
instantiate the derivation collaborator in concrete statements. -/
def secp256k1G : PubKeyPoint :=
  ⟨55066263022277343669578718895168534326250603453777594175500187360389116729240,
   32670510020758816978083085130507043184471273380659243275938904335757337482424⟩

/-- A concrete instantiation of the BIP-32 + SECP256K1 derivation
collaborator that derives the generator point at every index. -/
def deriveG : List Nat → Nat → Option PubKeyPoint := fun _ _ => some secp256k1G

/-- Shared helper: the Safe byte round-trip under the well-formedness
preconditions (metadata at most 255 bytes, metadata conversion a partial
inverse of serialization, 24-byte nonce). -/
theorem safe_roundtrip_aux (mInto : α → List Nat) (mFrom : List Nat → Option α)
    (s : Safe α)
    (hmd : (mInto s.metadata).length ≤ 255)
    (hinv : mFrom (mInto s.metadata) = some s.metadata)
    (hnonce : s.nonce.length = 24) :
    ∃ bytes, Safe.toBytes mInto s = .ok bytes ∧
      Safe.tryFrom mFrom bytes = .ok s := by
  refine ⟨(mInto s.metadata).length ::
    (mInto s.metadata ++ s.encrypted_bytes ++ s.nonce), ?_, ?_⟩
  · unfold Safe.toBytes
    rw [if_pos hmd]
  · unfold Safe.tryFrom
    set md := mInto s.metadata with hmdDef
    have hlen : (md.length :: (md ++ s.encrypted_bytes ++ s.nonce)).length
        = md.length + s.encrypted_bytes.length + 24 + 1 := by
      simp [hnonce]; omega
    rw [hlen]
    rw [if_neg (by omega)]
    have hslice1 : sliceList (md.length :: (md ++ s.encrypted_bytes ++ s.nonce))
        1 (md.length + 1) = md := by
      unfold sliceList
      rw [List.drop_succ_cons, List.drop_zero, Nat.add_sub_cancel,
        List.append_assoc, List.take_left]
    have hhead : (md.length :: (md ++ s.encrypted_bytes ++ s.nonce)).headD 0
        = md.length := rfl
    rw [hhead, if_neg (by omega), hslice1, hinv]
    dsimp only
    rw [if_neg (by omega), if_neg (by omega)]
    have hslice2 : sliceList (md.length :: (md ++ s.encrypted_bytes ++ s.nonce))
        (md.length + 1) (md.length + s.encrypted_bytes.length + 24 + 1 - 24)
        = s.encrypted_bytes := by
      unfold sliceList
      rw [List.drop_succ_cons, List.append_assoc, List.drop_left]
      have : md.length + s.encrypted_bytes.length + 24 + 1 - 24 - (md.length + 1)
          = s.encrypted_bytes.length := by omega
      rw [this, List.take_left]
    have hslice3 : sliceList (md.length :: (md ++ s.encrypted_bytes ++ s.nonce))
        (md.length + s.encrypted_bytes.length + 24 + 1 - 24)
        (md.length + s.encrypted_bytes.length + 24 + 1) = s.nonce := by
      unfold sliceList
      have h1 : md.length + s.encrypted_bytes.length + 24 + 1 - 24
          = (md.length + s.encrypted_bytes.length) + 1 := by omega
      rw [h1, List.drop_succ_cons]
      have h2 : md.length + s.encrypted_bytes.length = (md ++ s.encrypted_bytes).length := by
        simp
      rw [h2, List.drop_left]
      have h3 : (md ++ s.encrypted_bytes).length + 24 + 1
          - ((md ++ s.encrypted_bytes).length + 1) = 24 := by
        omega
      rw [h3, ← hnonce, List.take_length s.nonce]
    rw [hslice2, hslice3, if_pos hnonce]

/-- C3: for a well-formed Safe (metadata serializing to at most 255
bytes, metadata conversion a partial inverse of serialization, 24-byte
nonce), serialization followed by deserialization yields the same Safe:
equal metadata, encrypted bytes and nonce. -/
theorem safe_bytes_roundtrip (mInto : α → List Nat) (mFrom : List Nat → Option α)
    (s : Safe α)
    (hmd : (mInto s.metadata).length ≤ 255)
    (hinv : mFrom (mInto s.metadata) = some s.metadata)
    (hnonce : s.nonce.length = 24) :
    ∃ bytes, Safe.toBytes mInto s = .ok bytes ∧
      Safe.tryFrom mFrom bytes = .ok s :=
  safe_roundtrip_aux mInto mFrom s hmd hinv hnonce

/-- Parsing the canonical byte form of a vault safe (16-byte salt
metadata, arbitrary ciphertext, 24-byte nonce) recovers the safe. -/
theorem safe_tryFrom_wellformed (salt cipher nonce : List Nat)
    (hsalt : salt.length = 16) (hnonce : nonce.length = 24) :
    Safe.tryFrom saltFrom (16 :: (salt ++ cipher ++ nonce)) =
      .ok ⟨salt, cipher, nonce⟩ := by
  obtain ⟨bytes, h1, h2⟩ := safe_roundtrip_aux saltInto saltFrom
    ⟨salt, cipher, nonce⟩ (by simp [saltInto, hsalt])
    (by simp [saltInto, saltFrom, hsalt]) hnonce
  have h3 : Safe.toBytes saltInto (⟨salt, cipher, nonce⟩ : Safe (List Nat))
      = .ok (16 :: (salt ++ cipher ++ nonce)) := by
    unfold Safe.toBytes
    rw [if_pos (by simp [saltInto, hsalt])]
    dsimp only [saltInto]
    rw [hsalt]
  rw [h3] at h1
  injection h1 with h1
  rw [h1]
  exact h2

/-- C10: serializing a Safe succeeds exactly under the 255-byte metadata
precondition: within the cap the conversion returns bytes whose first
byte is the metadata length, and beyond the cap the unwrapped `u8` cast
panics. -/
theorem safe_toBytes_metadata_cap (mInto : α → List Nat) (s : Safe α) :
    ((mInto s.metadata).length ≤ 255 →
      ∃ bytes, Safe.toBytes mInto s = .ok bytes ∧
        bytes.headD 0 = (mInto s.metadata).length) ∧
    (255 < (mInto s.metadata).length →
      Safe.toBytes mInto s = .panicked) := by
  constructor
  · intro h
    refine ⟨(mInto s.metadata).length ::
      (mInto s.metadata ++ s.encrypted_bytes ++ s.nonce), ?_, rfl⟩
    unfold Safe.toBytes
    rw [if_pos h]
  · intro h
    unfold Safe.toBytes
    rw [if_neg (by omega)]

/-- C7 (code bug): on inputs whose length accounting does not add up,
`Safe::try_from` panics instead of returning the `Deserialization`
error: the empty vector panics on `bytes[0]`, a vector too short for its
declared metadata panics on the metadata slice, and a vector with valid
metadata but too short for the 24-byte nonce panics on the
`bytes.len() - 24` slice bound. -/
theorem safe_tryFrom_panics_on_short_input :
    Safe.tryFrom saltFrom [] = .panicked ∧
    Safe.tryFrom saltFrom [16, 0, 0] = .panicked ∧
    Safe.tryFrom saltFrom (16 :: List.replicate 16 0) = .panicked := by
  refine ⟨rfl, rfl, by decide⟩

/-- Witness for C3 at a concrete Safe with a 16-byte salt metadata. -/
theorem safe_bytes_roundtrip_witness :
    (saltInto ((⟨List.replicate 16 3, [7, 8], List.replicate 24 5⟩ :
        Safe (List Nat)).metadata)).length ≤ 255 ∧
    ∃ bytes, Safe.toBytes saltInto
        (⟨List.replicate 16 3, [7, 8], List.replicate 24 5⟩ : Safe (List Nat)) = .ok bytes ∧
      Safe.tryFrom saltFrom bytes = .ok
        (⟨List.replicate 16 3, [7, 8], List.replicate 24 5⟩ : Safe (List Nat)) :=
  ⟨by decide,
    safe_bytes_roundtrip saltInto saltFrom _ (by decide) (by decide) (by decide)⟩

/-- Witness for C10: both sides of the cap at concrete Safes. -/
theorem safe_toBytes_metadata_cap_witness :
    (∃ bytes, Safe.toBytes saltInto
        (⟨List.replicate 16 3, [7], List.replicate 24 5⟩ : Safe (List Nat)) = .ok bytes ∧
      bytes.headD 0 = (saltInto (List.replicate 16 3)).length) ∧
    Safe.toBytes saltInto
      (⟨List.replicate 256 3, [7], List.replicate 24 5⟩ : Safe (List Nat)) = .panicked :=
  ⟨(safe_toBytes_metadata_cap saltInto
      (⟨List.replicate 16 3, [7], List.replicate 24 5⟩ : Safe (List Nat))).1 (by decide),
   (safe_toBytes_metadata_cap saltInto
      (⟨List.replicate 256 3, [7], List.replicate 24 5⟩ : Safe (List Nat))).2 (by decide)⟩

/-- C4: unlocking a locked vault with a password whose derived key fails
to open the safe returns the `SafeDecrypt` error and leaves the vault
unchanged (still locked, safe metadata, ciphertext and nonce intact). -/
theorem vault_unlock_safe_decrypt_err (A : AEAD) (kdf : KDF) (v : Vault)
    (password : List Nat) (safe : Safe (List Nat))
    (hsafe : v.safe = some safe)
    (hdec : A.dec (kdf password safe.metadata 1000) safe.nonce
      safe.encrypted_bytes = none) :
    Vault.unlock A kdf v password = (.error .SafeDecrypt, v) := by
  unfold Vault.unlock
  rw [hsafe]
  dsimp only [Safe.decrypt, EncryptionKey.with_salt]
  rw [hdec]

/-- Witness for C4 at a concrete locked vault and an AEAD that rejects
the ciphertext. -/
theorem vault_unlock_safe_decrypt_err_witness :
    (⟨none, some ⟨[1], [2], [3]⟩⟩ : Vault).safe = some ⟨[1], [2], [3]⟩ ∧
    Vault.unlock ⟨fun _ _ msg => msg, fun _ _ _ => none⟩ (fun _ _ _ => [])
      ⟨none, some ⟨[1], [2], [3]⟩⟩ [9] = (.error .SafeDecrypt, ⟨none, some ⟨[1], [2], [3]⟩⟩) :=
  ⟨rfl, vault_unlock_safe_decrypt_err ⟨fun _ _ msg => msg, fun _ _ _ => none⟩
    (fun _ _ _ => []) ⟨none, some ⟨[1], [2], [3]⟩⟩ [9] ⟨[1], [2], [3]⟩ rfl rfl⟩

/-- C2: locking an unlocked vault and unlocking it again with the same
password succeeds and returns the vault to the unlocked state with the
same identity (hence the same serialized identity bytes), given that the
AEAD decrypts what it encrypted under the same key and nonce. -/
theorem vault_lock_unlock_roundtrip (A : AEAD) (kdf : KDF) (v : Vault)
    (password ent : List Nat) (idn : HDKey)
    (hidn : v.identity = some idn) (hsafe : v.safe = none)
    (hrt : ∀ key nonce msg, A.dec key nonce (A.enc key nonce msg) = some msg) :
    ∃ v' ent', Vault.lock A kdf v password ent = (.ok (), v', ent') ∧
      Vault.unlock A kdf v' password = (.ok (), v) := by
  unfold Vault.lock
  rw [hidn]
  dsimp only [EncryptionKey.new, Safe.from_plain_bytes]
  refine ⟨_, _, rfl, ?_⟩
  unfold Vault.unlock
  dsimp only [Safe.decrypt, EncryptionKey.with_salt]
  rw [hrt]
  dsimp only [HDKey.deserialize, HDKey.serialize]
  have hv : v = ⟨some idn, none⟩ := by
    cases v
    simp_all
  rw [hv]

/-- Witness for C2 at a concrete unlocked vault and a round-tripping
AEAD. -/
theorem vault_lock_unlock_roundtrip_witness :
    (⟨some ⟨[1, 2, 3]⟩, none⟩ : Vault).identity = some ⟨[1, 2, 3]⟩ ∧
    ∃ v' ent', Vault.lock ⟨fun _ _ msg => msg, fun _ _ c => some c⟩ (fun _ _ _ => [])
        ⟨some ⟨[1, 2, 3]⟩, none⟩ [9] [] = (.ok (), v', ent') ∧
      Vault.unlock ⟨fun _ _ msg => msg, fun _ _ c => some c⟩ (fun _ _ _ => [])
        v' [9] = (.ok (), ⟨some ⟨[1, 2, 3]⟩, none⟩) :=
  ⟨rfl, vault_lock_unlock_roundtrip ⟨fun _ _ msg => msg, fun _ _ c => some c⟩
    (fun _ _ _ => []) ⟨some ⟨[1, 2, 3]⟩, none⟩ [9] [] ⟨[1, 2, 3]⟩ rfl rfl
    (fun _ _ _ => rfl)⟩

/-- C5: whenever `Keychain::lock` completes, the observable state holds
an empty accounts list (the store is cleared before the vault sweep, and
the sweep never touches it). -/
theorem keychain_lock_clears_accounts (A : AEAD) (kdf : KDF) (k : Keychain)
    (password ent : List Nat) :
    ((Keychain.lock A kdf k password ent).2.1).store.state.accounts = [] := by
  unfold Keychain.lock
  dsimp only [Observable.update]
  rcases hl : Keychain.lockVaults A kdf k.key_pairs password ent with ⟨r, kps', ent'⟩
  cases r <;> simp

/-- Helper for C8: starting from any observer list, a pure-subscribe
trace returns the consecutive ids `observers.length, observers.length+1, ...`. -/
theorem observable_runOps_all_subscribe (s : σ) (ops : List ObsOp)
    (hsub : ∀ op ∈ ops, op = ObsOp.subscribeOp) :
    ∀ obs : List Nat, (Observable.runOps ⟨s, obs⟩ ops).2
      = List.range' obs.length ops.length := by
  induction ops with
  | nil => intro obs; simp [Observable.runOps]
  | cons op rest ih =>
    intro obs
    have hop : op = ObsOp.subscribeOp := hsub op (by simp)
    subst hop
    have hrest : ∀ op ∈ rest, op = ObsOp.subscribeOp := by
      intro op hmem
      exact hsub op (by simp [hmem])
    unfold Observable.runOps
    dsimp only [Observable.subscribe]
    rw [ih hrest (obs ++ [obs.length])]
    simp [List.range'_succ]

/-- C8 counterexample: after `subscribe, subscribe, unsubscribe 0`, a
further subscribe returns id 1, which was already returned by the second
subscribe — ids are not allocated from a monotonically increasing
counter and unsubscribe recycles ids. -/
theorem observable_id_recycling_counterexample :
    (Observable.runOps (Observable.new (0 : Nat))
      [ObsOp.subscribeOp, ObsOp.subscribeOp, ObsOp.unsubscribeOp 0,
       ObsOp.subscribeOp]).2 = [0, 1, 1] ∧
    ¬ ((Observable.runOps (Observable.new (0 : Nat))
      [ObsOp.subscribeOp, ObsOp.subscribeOp, ObsOp.unsubscribeOp 0,
       ObsOp.subscribeOp]).2).Nodup := by
  constructor
  · rfl
  · decide

/-- C8 (amended): subscriber ids equal the observer count at subscribe
time; hence in any trace containing no unsubscribe the returned ids are
`0, 1, 2, ...` — pairwise distinct and strictly increasing.  (After an
unsubscribe the count can drop, so a later subscribe may recycle a
previously returned id, as the counterexample shows.) -/
theorem observable_subscribe_only_ids_distinct (s : σ) (ops : List ObsOp)
    (hsub : ∀ op ∈ ops, op = ObsOp.subscribeOp) :
    (Observable.runOps (Observable.new s) ops).2 = List.range ops.length ∧
    ((Observable.runOps (Observable.new s) ops).2).Nodup := by
  have h := observable_runOps_all_subscribe s ops hsub []
  simp only [Observable.new] at h ⊢
  rw [h, List.range_eq_range']
  exact ⟨rfl, List.nodup_range' ..⟩

/-- Witness for C8's amended theorem at a concrete three-subscribe
trace. -/
theorem observable_subscribe_only_ids_distinct_witness :
    (Observable.runOps (Observable.new (0 : Nat))
      [ObsOp.subscribeOp, ObsOp.subscribeOp, ObsOp.subscribeOp]).2
      = List.range 3 ∧
    ((Observable.runOps (Observable.new (0 : Nat))
      [ObsOp.subscribeOp, ObsOp.subscribeOp, ObsOp.subscribeOp]).2).Nodup :=
  observable_subscribe_only_ids_distinct 0
    [ObsOp.subscribeOp, ObsOp.subscribeOp, ObsOp.subscribeOp] (by decide)

/-- Keccak-256 always squeezes exactly 32 bytes. -/
theorem keccak256_length (data : List Nat) : (keccak256 data).length = 32 := by
  simp [keccak256]

/-- Hex encoding distributes over append. -/
theorem hexEncodeChars_append (a b : List Nat) :
    hexEncodeChars (a ++ b) = hexEncodeChars a ++ hexEncodeChars b := by
  simp [hexEncodeChars]

/-- Hex encoding yields two characters per byte. -/
theorem hexEncodeChars_length (bs : List Nat) :
    (hexEncodeChars bs).length = 2 * bs.length := by
  induction bs with
  | nil => rfl
  | cons b rest ih =>
    simp only [hexEncodeChars, List.flatMap_cons] at ih ⊢
    simp [ih]
    omega

/-- Decoding a hex digit returns its value. -/
theorem hexCharVal_hexDigitChar : ∀ n < 16, hexCharVal (hexDigitChar n) = some n := by
  decide

/-- A hex digit is never the letter `x`. -/
theorem hexDigitChar_ne_x : ∀ n < 16, hexDigitChar n ≠ 'x' := by
  decide

/-- Hex encoding always decodes back successfully. -/
theorem hexDecodeChars_hexEncodeChars (bs : List Nat) :
    ∃ v, hexDecodeChars (hexEncodeChars bs) = some v := by
  induction bs with
  | nil => exact ⟨[], rfl⟩
  | cons b rest ih =>
    rcases ih with ⟨v, hv⟩
    have h1 : b % 256 / 16 < 16 :=
      Nat.div_lt_of_lt_mul (by have := Nat.mod_lt b (show 0 < 256 by norm_num); omega)
    have h2 : b % 16 < 16 := Nat.mod_lt b (by norm_num)
    refine ⟨(16 * (b % 256 / 16) + b % 16) :: v, ?_⟩
    simp only [hexEncodeChars, List.flatMap_cons]
    show hexDecodeChars (hexDigitChar (b % 256 / 16) :: hexDigitChar (b % 16)
      :: hexEncodeChars rest) = _
    unfold hexDecodeChars
    rw [hexCharVal_hexDigitChar _ h1, hexCharVal_hexDigitChar _ h2, hv]

/-- When the second character is not `x`, `remove0x` is the identity. -/
theorem remove0xChars_cons_ne (c1 c2 : Char) (rest : List Char) (h : c2 ≠ 'x') :
    remove0xChars (c1 :: c2 :: rest) = c1 :: c2 :: rest := by
  unfold remove0xChars
  split
  · next heq =>
    injection heq with h1 h2
    injection h2 with h2 _
    exact absurd h2 h
  · rfl

/-- When the second character is not `x`, `add0x` prepends the prefix. -/
theorem add0xChars_cons_ne (c1 c2 : Char) (rest : List Char) (h : c2 ≠ 'x') :
    add0xChars (c1 :: c2 :: rest) = '0' :: 'x' :: c1 :: c2 :: rest := by
  unfold add0xChars
  split
  · next heq =>
    injection heq with h1 h2
    injection h2 with h2 _
    exact absurd h2 h
  · rfl

/-- `Account::from_public_key` always succeeds and produces the
`0x`-prefixed lowercase hex of the last 20 bytes of the Keccak-256 of the
compressed serialization of the public key. -/
theorem account_from_public_key_spec (pk : PubKeyPoint) (path : Nat) :
    Account.from_public_key pk path =
      .ok ⟨specAddressOfSerialization pk.serialize, pk.serialize, path⟩ := by
  have hK : (keccak256 pk.serialize).length = 32 := keccak256_length _
  have htk : ((keccak256 pk.serialize).take 12).length = 12 := by
    simp [hK]
  have hdk : ((keccak256 pk.serialize).drop 12).length = 20 := by
    simp [hK]
  have hsplit : hexEncodeChars (keccak256 pk.serialize)
      = hexEncodeChars ((keccak256 pk.serialize).take 12)
        ++ hexEncodeChars ((keccak256 pk.serialize).drop 12) := by
    rw [← hexEncodeChars_append, List.take_append_drop]
  have hlen : (hexEncodeChars (keccak256 pk.serialize)).length = 64 := by
    rw [hexEncodeChars_length, hK]
  have hlen12 : (hexEncodeChars ((keccak256 pk.serialize).take 12)).length = 24 := by
    rw [hexEncodeChars_length, htk]
  have haddr : (hexEncodeChars (keccak256 pk.serialize)).drop
      ((hexEncodeChars (keccak256 pk.serialize)).length - 40)
      = hexEncodeChars ((keccak256 pk.serialize).drop 12) := by
    rw [hlen]
    show (hexEncodeChars (keccak256 pk.serialize)).drop 24 = _
    rw [hsplit, ← hlen12, List.drop_left]
  obtain ⟨b, bs, hcons⟩ : ∃ b bs, (keccak256 pk.serialize).drop 12 = b :: bs := by
    cases hd : (keccak256 pk.serialize).drop 12 with
    | nil => rw [hd] at hdk; simp at hdk
    | cons b bs => exact ⟨b, bs, rfl⟩
  have hbs : bs.length = 19 := by
    rw [hcons] at hdk
    simpa using hdk
  have hb2 : b % 16 < 16 := Nat.mod_lt b (by norm_num)
  have hc2x : hexDigitChar (b % 16) ≠ 'x' := hexDigitChar_ne_x _ hb2
  have hconsEnc : hexEncodeChars (b :: bs)
      = hexDigitChar (b % 256 / 16) :: hexDigitChar (b % 16) :: hexEncodeChars bs := by
    simp [hexEncodeChars]
  obtain ⟨v, hdec⟩ := hexDecodeChars_hexEncodeChars ((keccak256 pk.serialize).drop 12)
  rw [hcons, hconsEnc] at hdec
  have hlen40 : (hexDigitChar (b % 256 / 16) :: hexDigitChar (b % 16)
      :: hexEncodeChars bs).length = 40 := by
    simp [hexEncodeChars_length, hbs]
  unfold Account.from_public_key
  dsimp only
  rw [haddr, hcons, hconsEnc]
  unfold assert_is_valid_hex_address
  dsimp only
  rw [remove0xChars_cons_ne _ _ _ hc2x, hdec]
  dsimp only
  rw [if_neg (by omega)]
  dsimp only
  rw [add0xChars_cons_ne _ _ _ hc2x]
  unfold specAddressOfSerialization
  rw [hcons, hconsEnc]

/-- C6 (amended): for every derivation collaborator, HDKey and index at
which derivation succeeds, `account_at` returns an Account whose address
is the last 20 bytes of the Keccak-256 of the 33-byte COMPRESSED
serialization of the derived public key, as lowercase hex with a `0x`
prefix, exactly 42 characters long (the source hashes
`public_key.serialize()`, the compressed form, not the uncompressed
one). -/
theorem hdkey_account_at_compressed_address
    (derive : List Nat → Nat → Option PubKeyPoint) (h : HDKey) (index : Nat)
    (pk : PubKeyPoint) (hd : derive h.seed index = some pk) :
    HDKey.account_at derive h index =
      .ok ⟨specAddressOfSerialization pk.serialize, pk.serialize, index⟩ ∧
    (specAddressOfSerialization pk.serialize).length = 42 := by
  constructor
  · unfold HDKey.account_at
    rw [hd]
    dsimp only
    rw [account_from_public_key_spec]
  · unfold specAddressOfSerialization
    have hdk : ((keccak256 pk.serialize).drop 12).length = 20 := by
      simp [keccak256_length]
    simp [String.length, hexEncodeChars_length, hdk]

/-- Witness for C6's amended theorem at the generator point. -/
theorem hdkey_account_at_compressed_address_witness :
    HDKey.account_at deriveG ⟨[]⟩ 0 =
      .ok ⟨specAddressOfSerialization secp256k1G.serialize,
        secp256k1G.serialize, 0⟩ ∧
    (specAddressOfSerialization secp256k1G.serialize).length = 42 :=
  hdkey_account_at_compressed_address deriveG ⟨[]⟩ 0 secp256k1G rfl

/-- C6 counterexample: at a concrete derived public key (the SECP256K1
generator), the address actually produced by `account_at` — based on the
compressed serialization — differs from the address based on the
uncompressed serialization that the claim describes. -/
theorem account_at_uncompressed_address_counterexample :
    HDKey.account_at deriveG ⟨[]⟩ 0 =
      .ok ⟨specAddressOfSerialization secp256k1G.serialize,
        secp256k1G.serialize, 0⟩ ∧
    specAddressOfSerialization secp256k1G.serialize ≠
      specAddressOfSerialization secp256k1G.serialize_uncompressed := by
  constructor
  · show HDKey.account_at deriveG ⟨[]⟩ 0 = _
    unfold HDKey.account_at deriveG
    dsimp only
    rw [account_from_public_key_spec]
  · decide

/-- The entropy stream always yields the requested number of bytes. -/
theorem draw_length (n : Nat) (ent : List Nat) : (draw n ent).1.length = n := by
  simp [draw]
  omega

/-- `Vault.lock` on a vault holding an identity: explicit description of
the produced safe (fresh 16-byte salt as metadata, ciphertext of the
serialized identity, fresh 24-byte nonce). -/
theorem vault_lock_some (A : AEAD) (kdf : KDF) (v : Vault) (idn : HDKey)
    (password ent : List Nat) (hidn : v.identity = some idn) :
    Vault.lock A kdf v password ent =
      (.ok (), ⟨none, some ⟨(draw 16 ent).1,
        A.enc (kdf password (draw 16 ent).1 1000) (draw 24 (draw 16 ent).2).1 idn.seed,
        (draw 24 (draw 16 ent).2).1⟩⟩, (draw 24 (draw 16 ent).2).2) := by
  unfold Vault.lock
  rw [hidn]
  dsimp only [EncryptionKey.new, Safe.from_plain_bytes, HDKey.serialize]

/-- The canonical byte form of a freshly locked vault safe. -/
theorem vault_to_bytes_fresh (salt cipher nonce : List Nat)
    (hsalt : salt.length = 16) :
    Vault.to_bytes ⟨none, some ⟨salt, cipher, nonce⟩⟩ =
      .ok (16 :: (salt ++ cipher ++ nonce)) := by
  unfold Vault.to_bytes Safe.toBytes
  dsimp only [saltInto]
  rw [if_pos (by omega), hsalt]

/-- First pass of `backup` over a list of unlocked vaults: it succeeds,
restores every vault to its original state, and produces frames whose
payloads are well-formed locked-safe bytes decryptable back to the
original seeds. -/
theorem backupPass1_unlocked (A : AEAD) (kdf : KDF) (password : List Nat)
    (hrt : ∀ key nonce msg, A.dec key nonce (A.enc key nonce msg) = some msg) :
    ∀ (kps : List KeyPair) (ent : List Nat),
    (∀ kp ∈ kps, ∃ idn : HDKey, kp = .MultiKeyPair ⟨some idn, none⟩) →
    ∃ pairs ent',
      Keychain.backupPass1 A kdf kps password ent = (.ok pairs, kps, ent') ∧
      List.Forall₂ (fun (pr : Nat × List Nat) (kp : KeyPair) =>
        pr.1 = 0 ∧
        ∃ (idn : HDKey) (salt cipher nonce : List Nat),
          kp = .MultiKeyPair ⟨some idn, none⟩ ∧
          salt.length = 16 ∧ nonce.length = 24 ∧
          pr.2 = 16 :: (salt ++ cipher ++ nonce) ∧
          A.dec (kdf password salt 1000) nonce cipher = some idn.seed)
        pairs kps := by
  intro kps
  induction kps with
  | nil =>
    intro ent _
    exact ⟨[], ent, rfl, List.Forall₂.nil⟩
  | cons kp rest ih =>
    intro ent hall
    obtain ⟨idn, hkp⟩ := hall kp (by simp)
    obtain ⟨pairs, ent', hrec, hrel⟩ := ih (draw 24 (draw 16 ent).2).2
      (fun kp' hkp' => hall kp' (by simp [hkp']))
    subst hkp
    refine ⟨(0, 16 :: ((draw 16 ent).1 ++
      A.enc (kdf password (draw 16 ent).1 1000) (draw 24 (draw 16 ent).2).1 idn.seed ++
      (draw 24 (draw 16 ent).2).1)) :: pairs, ent', ?_, ?_⟩
    · show Keychain.backupPass1 A kdf (.MultiKeyPair ⟨some idn, none⟩ :: rest)
        password ent = _
      unfold Keychain.backupPass1
      rw [if_pos (by rfl)]
      rw [vault_lock_some A kdf ⟨some idn, none⟩ idn password ent rfl]
      dsimp only
      rw [vault_to_bytes_fresh _ _ _ (draw_length 16 ent)]
      dsimp only
      show (match Vault.unlock A kdf ⟨none, some ⟨(draw 16 ent).1, _, _⟩⟩ password with
        | (.error e, vault'') => _
        | (.ok _, vault'') => _) = _
      unfold Vault.unlock
      dsimp only [Safe.decrypt, EncryptionKey.with_salt]
      rw [hrt]
      dsimp only [HDKey.deserialize]
      rw [hrec]
    · exact List.Forall₂.cons
        ⟨rfl, idn, (draw 16 ent).1, _, (draw 24 (draw 16 ent).2).1,
          rfl, draw_length 16 ent, draw_length 24 _, rfl, hrt _ _ _⟩ hrel

/-- A successful `condense` means every vault blob fits in the one-byte
length field, and the output is the concatenation of the frames. -/
theorem condense_ok :
    ∀ (pairs : List (Nat × List Nat)) (bytes : List Nat),
    Keychain.condense pairs = .ok bytes →
    (∀ pr ∈ pairs, pr.2.length ≤ 255) ∧
    bytes = (pairs.map (fun pr => pr.2.length :: pr.1 :: pr.2)).flatten := by
  intro pairs
  induction pairs with
  | nil =>
    intro bytes h
    injection h with h
    simpa using h.symm
  | cons pr rest ih =>
    intro bytes h
    unfold Keychain.condense at h
    by_cases hle : pr.2.length ≤ 255
    · rw [if_pos hle] at h
      cases hrec : Keychain.condense rest with
      | ok out =>
        rw [hrec] at h
        injection h with h
        obtain ⟨hall, hout⟩ := ih out hrec
        constructor
        · intro q hq
          rcases List.mem_cons.mp hq with hq | hq
          · rw [hq]; exact hle
          · exact hall q hq
        · rw [← h, hout]
          simp
      | error e => rw [hrec] at h; cases h
    · rw [if_neg hle] at h
      cases h

/-- The parse loop is fuel-insensitive once the fuel covers the byte
count. -/
theorem parseFramesGo_fuel :
    ∀ (fuel₁ fuel₂ : Nat) (bytes : List Nat),
    bytes.length ≤ fuel₁ → bytes.length ≤ fuel₂ →
    Keychain.parseFramesGo fuel₁ bytes = Keychain.parseFramesGo fuel₂ bytes := by
  intro fuel₁
  induction fuel₁ with
  | zero =>
    intro fuel₂ bytes h1 h2
    have hb : bytes.length = 0 := by omega
    cases fuel₂ <;>
      · unfold Keychain.parseFramesGo
        simp only [if_pos hb]
  | succ f ih =>
    intro fuel₂ bytes h1 h2
    by_cases hb : bytes.length = 0
    · cases fuel₂ <;>
        · unfold Keychain.parseFramesGo
          simp only [if_pos hb]
    · have hfuel₂ : ∃ g, fuel₂ = g + 1 := by
        cases fuel₂ with
        | zero => omega
        | succ g => exact ⟨g, rfl⟩
      obtain ⟨g, rfl⟩ := hfuel₂
      unfold Keychain.parseFramesGo
      rw [if_neg hb, if_neg hb]
      by_cases h2b : bytes.length < 2
      · rw [if_pos h2b, if_pos h2b]
      · rw [if_neg h2b, if_neg h2b]
        by_cases htype : (bytes.drop 1).headD 0 = 0
        · rw [if_pos htype, if_pos htype]
          by_cases hlen : bytes.length < bytes.headD 0 + 2
          · rw [if_pos hlen, if_pos hlen]
          · rw [if_neg hlen, if_neg hlen]
            have hdrop : (bytes.drop (bytes.headD 0 + 2)).length ≤ f ∧
                (bytes.drop (bytes.headD 0 + 2)).length ≤ g := by
              simp only [List.length_drop]
              omega
            rw [ih g (bytes.drop (bytes.headD 0 + 2)) hdrop.1 hdrop.2]
        · rw [if_neg htype, if_neg htype]

/-- Parsing one well-formed frame prepends its locked vault and
continues with the remaining bytes. -/
theorem parseFrames_cons_frame (b rest : List Nat) (safe : Safe (List Nat))
    (hb : Safe.tryFrom saltFrom b = .ok safe) :
    Keychain.parseFrames ((b.length :: 0 :: b) ++ rest) =
      match Keychain.parseFrames rest with
      | .ok kps => .ok (.MultiKeyPair ⟨none, some safe⟩ :: kps)
      | .err e => .err e
      | .panicked => .panicked := by
  have hbytes : (b.length :: 0 :: b) ++ rest = b.length :: 0 :: (b ++ rest) := by
    simp
  rw [hbytes]
  unfold Keychain.parseFrames
  have hlenfull : (b.length :: 0 :: (b ++ rest)).length
      = (b.length + rest.length + 1) + 1 := by
    simp
  rw [hlenfull]
  conv_lhs => unfold Keychain.parseFramesGo
  rw [hlenfull]
  rw [if_neg (by omega)]
  dsimp only [List.headD_cons, List.drop_succ_cons, List.drop_zero]
  rw [if_neg (by omega), if_pos rfl, if_neg (by omega)]
  have hsl : sliceList (b.length :: 0 :: (b ++ rest)) 2 (b.length + 2) = b := by
    unfold sliceList
    have h2 : (2 : Nat) = 1 + 1 := rfl
    rw [h2, List.drop_succ_cons, List.drop_succ_cons, List.drop_zero,
      Nat.add_sub_cancel, List.take_left]
  rw [hsl]
  unfold Vault.tryFrom
  rw [hb]
  dsimp only
  rw [List.drop_left]
  rw [parseFramesGo_fuel (b.length + rest.length + 1) rest.length rest
    (by omega) (Nat.le_refl _)]

/-- Parsing the concatenated frames of a successful first backup pass
over unlocked vaults and then unlocking the parsed vaults reproduces the
original key pairs. -/
theorem parse_unlock_frames (A : AEAD) (kdf : KDF) (password : List Nat) :
    ∀ (pairs : List (Nat × List Nat)) (orig : List KeyPair),
    List.Forall₂ (fun (pr : Nat × List Nat) (kp : KeyPair) =>
      pr.1 = 0 ∧
      ∃ (idn : HDKey) (salt cipher nonce : List Nat),
        kp = .MultiKeyPair ⟨some idn, none⟩ ∧
        salt.length = 16 ∧ nonce.length = 24 ∧
        pr.2 = 16 :: (salt ++ cipher ++ nonce) ∧
        A.dec (kdf password salt 1000) nonce cipher = some idn.seed)
      pairs orig →
    ∃ locked : List KeyPair,
      Keychain.parseFrames
        ((pairs.map (fun pr => pr.2.length :: pr.1 :: pr.2)).flatten) = .ok locked ∧
      Keychain.unlockVaults A kdf locked password = (.ok (), orig) := by
  intro pairs orig hrel
  induction hrel with
  | nil => exact ⟨[], rfl, rfl⟩
  | @cons pr kp pairsTail origTail hhead _ ih =>
    obtain ⟨htag, idn, salt, cipher, nonce, hkp, hsalt, hnonce, hbytes, hdec⟩ := hhead
    obtain ⟨lockedTail, hparse, hunlock⟩ := ih
    refine ⟨.MultiKeyPair ⟨none, some ⟨salt, cipher, nonce⟩⟩ :: lockedTail, ?_, ?_⟩
    · have hflat : ((pr :: pairsTail).map
          (fun pr => pr.2.length :: pr.1 :: pr.2)).flatten
          = (pr.2.length :: pr.1 :: pr.2)
            ++ ((pairsTail.map (fun pr => pr.2.length :: pr.1 :: pr.2)).flatten) := by
        simp
      rw [hflat, htag, hbytes]
      have htf : Safe.tryFrom saltFrom (16 :: (salt ++ cipher ++ nonce))
          = .ok ⟨salt, cipher, nonce⟩ := safe_tryFrom_wellformed salt cipher nonce hsalt hnonce
      have hlen : (16 :: (salt ++ cipher ++ nonce)).length
          = (16 :: (salt ++ cipher ++ nonce)).length := rfl
      have := parseFrames_cons_frame (16 :: (salt ++ cipher ++ nonce))
        ((pairsTail.map (fun pr => pr.2.length :: pr.1 :: pr.2)).flatten)
        ⟨salt, cipher, nonce⟩ htf
      rw [this, hparse]
    · unfold Keychain.unlockVaults
      unfold Vault.unlock
      dsimp only [Safe.decrypt, EncryptionKey.with_salt]
      rw [hdec]
      dsimp only [HDKey.deserialize]
      rw [hunlock, hkp]

/-- C1: for a keychain whose key pairs are all unlocked (and whose
observable accounts list is empty), whenever `backup(password)` succeeds,
`restore(backup(password), password)` succeeds and returns a keychain
structurally equal to the original: the same key pairs in the same
insertion order with the same inner identity bytes, and the same (empty)
observable accounts list.  The AEAD hypothesis states that decryption
inverts encryption under the same key and nonce. -/
theorem keychain_backup_restore_roundtrip (A : AEAD) (kdf : KDF) (k k' : Keychain)
    (password ent ent' bytes : List Nat)
    (hrt : ∀ key nonce msg, A.dec key nonce (A.enc key nonce msg) = some msg)
    (hunlocked : ∀ kp ∈ k.key_pairs, ∃ idn : HDKey,
      kp = .MultiKeyPair ⟨some idn, none⟩)
    (haccounts : k.store.state.accounts = [])
    (hbk : Keychain.backup A kdf k password ent = (.ok bytes, k', ent')) :
    ∃ k'' : Keychain, Keychain.restore A kdf bytes password = .ok k'' ∧
      k''.key_pairs = k.key_pairs ∧
      k''.store.state.accounts = k.store.state.accounts := by
  obtain ⟨pairs, ent₂, hpass1, hrel⟩ :=
    backupPass1_unlocked A kdf password hrt k.key_pairs ent hunlocked
  unfold Keychain.backup at hbk
  rw [hpass1] at hbk
  dsimp only at hbk
  cases hcond : Keychain.condense pairs with
  | error e =>
    rw [hcond] at hbk
    exact absurd (congrArg Prod.fst hbk) (by simp)
  | ok out =>
    rw [hcond] at hbk
    have hout : out = bytes := by
      have := congrArg Prod.fst hbk
      simpa using this
    subst hout
    obtain ⟨hall, hflat⟩ := condense_ok pairs out hcond
    obtain ⟨locked, hparse, hunl⟩ :=
      parse_unlock_frames A kdf password pairs k.key_pairs hrel
    refine ⟨⟨k.key_pairs, Observable.new ⟨[]⟩⟩, ?_, rfl, ?_⟩
    · unfold Keychain.restore
      rw [hflat, hparse]
      dsimp only
      unfold Keychain.unlock
      rw [hunl]
    · rw [haccounts]
      rfl

/-- Witness for C1 at a concrete one-vault keychain, a round-tripping
AEAD and the empty entropy stream. -/
theorem keychain_backup_restore_roundtrip_witness :
    ∃ k'' : Keychain,
      Keychain.restore ⟨fun _ _ msg => msg, fun _ _ c => some c⟩ (fun _ _ _ => [])
        (43 :: 0 :: 16 :: (List.replicate 16 0 ++ [1, 2] ++ List.replicate 24 0))
        [7] = .ok k'' ∧
      k''.key_pairs = (⟨[.MultiKeyPair ⟨some ⟨[1, 2]⟩, none⟩],
        Observable.new ⟨[]⟩⟩ : Keychain).key_pairs ∧
      k''.store.state.accounts = (⟨[.MultiKeyPair ⟨some ⟨[1, 2]⟩, none⟩],
        Observable.new ⟨[]⟩⟩ : Keychain).store.state.accounts :=
  keychain_backup_restore_roundtrip
    ⟨fun _ _ msg => msg, fun _ _ c => some c⟩ (fun _ _ _ => [])
    ⟨[.MultiKeyPair ⟨some ⟨[1, 2]⟩, none⟩], Observable.new ⟨[]⟩⟩
    ⟨[.MultiKeyPair ⟨some ⟨[1, 2]⟩, none⟩], Observable.new ⟨[]⟩⟩
    [7] [] []
    (43 :: 0 :: 16 :: (List.replicate 16 0 ++ [1, 2] ++ List.replicate 24 0))
    (fun _ _ _ => rfl)
    (by
      intro kp hkp
      simp only [List.mem_singleton] at hkp
      exact ⟨⟨[1, 2]⟩, hkp⟩)
    rfl
    (by decide)

/-- A successful first backup pass leaves every vault exactly as it was
(unlocked vaults are transiently locked and then restored; locked vaults
are untouched) and tags every frame with `0`; for every locked vault the
emitted payload is its direct byte serialization. -/
theorem backupPass1_ok (A : AEAD) (kdf : KDF) (password : List Nat)
    (hrt : ∀ key nonce msg, A.dec key nonce (A.enc key nonce msg) = some msg) :
    ∀ (kps : List KeyPair) (kps' : List KeyPair) (ent ent' : List Nat)
      (pairs : List (Nat × List Nat)),
    Keychain.backupPass1 A kdf kps password ent = (.ok pairs, kps', ent') →
    kps' = kps ∧
    List.Forall₂ (fun (kp : KeyPair) (pr : Nat × List Nat) =>
      pr.1 = 0 ∧
      (kp.vault.is_unlocked = false → Vault.to_bytes kp.vault = .ok pr.2))
      kps pairs := by
  intro kps
  induction kps with
  | nil =>
    intro kps' ent ent' pairs h
    unfold Keychain.backupPass1 at h
    have h1 := congrArg (fun t : PResult VaultError (List (Nat × List Nat))
      × List KeyPair × List Nat => t.2.1) h
    have h2 := congrArg (fun t : PResult VaultError (List (Nat × List Nat))
      × List KeyPair × List Nat => t.1) h
    simp only at h1 h2
    refine ⟨h1.symm, ?_⟩
    cases pairs with
    | nil => exact List.Forall₂.nil
    | cons p ps =>
      injection h2 with h2
      exact absurd h2 (by simp)
  | cons kp rest ih =>
    intro kps' ent ent' pairs h
    rcases kp with ⟨v⟩
    rcases v with ⟨vid, vsafe⟩
    cases vsafe with
    | none =>
      cases vid with
      | some idn =>
        unfold Keychain.backupPass1 at h
        rw [if_pos (by rfl)] at h
        rw [vault_lock_some A kdf ⟨some idn, none⟩ idn password ent rfl] at h
        dsimp only at h
        rw [vault_to_bytes_fresh _ _ _ (draw_length 16 ent)] at h
        dsimp only at h
        rw [show Vault.unlock A kdf ⟨none, some ⟨(draw 16 ent).1,
            A.enc (kdf password (draw 16 ent).1 1000) (draw 24 (draw 16 ent).2).1
              idn.seed, (draw 24 (draw 16 ent).2).1⟩⟩ password
            = (.ok (), ⟨some ⟨idn.seed⟩, none⟩) from by
          unfold Vault.unlock
          dsimp only [Safe.decrypt, EncryptionKey.with_salt]
          rw [hrt]
          dsimp only [HDKey.deserialize]] at h
        dsimp only at h
        rcases hrec : Keychain.backupPass1 A kdf rest password
            (draw 24 (draw 16 ent).2).2 with ⟨r, rest', ent₃⟩
        rw [hrec] at h
        cases r with
        | ok pairsTail =>
          dsimp only at h
          have hkps := congrArg (fun t : PResult VaultError (List (Nat × List Nat))
            × List KeyPair × List Nat => t.1) h
          have hpairs := congrArg (fun t : PResult VaultError (List (Nat × List Nat))
            × List KeyPair × List Nat => t.2.1) h
          simp only at hkps hpairs
          injection hkps with hkps
          obtain ⟨hrest, hrel⟩ := ih rest' (draw 24 (draw 16 ent).2).2 ent₃
            pairsTail hrec
          constructor
          · rw [← hpairs, hrest]
          · rw [← hkps]
            exact List.Forall₂.cons
              ⟨rfl, by
                intro hfalse
                simp [KeyPair.vault, Vault.is_unlocked] at hfalse⟩ hrel
        | err e =>
          dsimp only at h
          exact absurd (congrArg Prod.fst h) (by simp)
        | panicked =>
          dsimp only at h
          exact absurd (congrArg Prod.fst h) (by simp)
      | none =>
        unfold Keychain.backupPass1 at h
        rw [if_pos (by rfl)] at h
        dsimp only [Vault.lock, Vault.to_bytes] at h
        exact absurd (congrArg Prod.fst h) (by simp)
    | some s =>
      unfold Keychain.backupPass1 at h
      rw [if_neg (by simp [Vault.is_unlocked])] at h
      cases htb : Vault.to_bytes ⟨vid, some s⟩ with
      | ok b =>
        rw [htb] at h
        rcases hrec : Keychain.backupPass1 A kdf rest password ent
          with ⟨r, rest', ent₃⟩
        rw [hrec] at h
        cases r with
        | ok pairsTail =>
          dsimp only at h
          have hkps := congrArg (fun t : PResult VaultError (List (Nat × List Nat))
            × List KeyPair × List Nat => t.1) h
          have hpairs := congrArg (fun t : PResult VaultError (List (Nat × List Nat))
            × List KeyPair × List Nat => t.2.1) h
          simp only at hkps hpairs
          injection hkps with hkps
          obtain ⟨hrest, hrel⟩ := ih rest' ent ent₃ pairsTail hrec
          constructor
          · rw [← hpairs, hrest]
          · rw [← hkps]
            exact List.Forall₂.cons ⟨rfl, fun _ => htb⟩ hrel
        | err e =>
          dsimp only at h
          exact absurd (congrArg Prod.fst h) (by simp)
        | panicked =>
          dsimp only at h
          exact absurd (congrArg Prod.fst h) (by simp)
      | err e =>
        rw [htb] at h
        exact absurd (congrArg Prod.fst h) (by simp)
      | panicked =>
        rw [htb] at h
        exact absurd (congrArg Prod.fst h) (by simp)

/-- C9: a successful backup is non-destructive: every vault (and the
store) is exactly as before the call — unlocked vaults are unlocked again
with the same identity bytes, locked vaults stay locked and untouched —
the key-pair order is unchanged, and the emitted stream is the framed
concatenation of per-vault payloads in which every already-locked vault
appears byte-for-byte as its direct serialization (existing salt and
nonce preserved). -/
theorem keychain_backup_non_destructive (A : AEAD) (kdf : KDF) (k k' : Keychain)
    (password ent ent' bytes : List Nat)
    (hrt : ∀ key nonce msg, A.dec key nonce (A.enc key nonce msg) = some msg)
    (hbk : Keychain.backup A kdf k password ent = (.ok bytes, k', ent')) :
    k'.key_pairs = k.key_pairs ∧ k'.store = k.store ∧
    ∃ pairs : List (Nat × List Nat),
      bytes = (pairs.map (fun pr => pr.2.length :: pr.1 :: pr.2)).flatten ∧
      List.Forall₂ (fun (kp : KeyPair) (pr : Nat × List Nat) =>
        pr.1 = 0 ∧
        (kp.vault.is_unlocked = false → Vault.to_bytes kp.vault = .ok pr.2))
        k.key_pairs pairs := by
  unfold Keychain.backup at hbk
  rcases hp : Keychain.backupPass1 A kdf k.key_pairs password ent
    with ⟨r, kps₂, ent₂⟩
  rw [hp] at hbk
  cases r with
  | ok pairs =>
    dsimp only at hbk
    cases hcond : Keychain.condense pairs with
    | ok out =>
      rw [hcond] at hbk
      have hout := congrArg (fun t : PResult KeychainError (List Nat)
        × Keychain × List Nat => t.1) hbk
      have hk' := congrArg (fun t : PResult KeychainError (List Nat)
        × Keychain × List Nat => t.2.1) hbk
      simp only at hout hk'
      injection hout with hout
      obtain ⟨hkps, hrel⟩ := backupPass1_ok A kdf password hrt k.key_pairs
        kps₂ ent ent₂ pairs hp
      obtain ⟨hall, hflat⟩ := condense_ok pairs out hcond
      refine ⟨?_, ?_, pairs, ?_, hrel⟩
      · rw [← hk']
        exact hkps
      · rw [← hk']
      · rw [← hout, hflat]
    | error e =>
      rw [hcond] at hbk
      exact absurd (congrArg (fun t : PResult KeychainError (List Nat)
        × Keychain × List Nat => t.1) hbk) (by simp)
  | err e =>
    dsimp only at hbk
    exact absurd (congrArg (fun t : PResult KeychainError (List Nat)
      × Keychain × List Nat => t.1) hbk) (by simp)
  | panicked =>
    dsimp only at hbk
    exact absurd (congrArg (fun t : PResult KeychainError (List Nat)
      × Keychain × List Nat => t.1) hbk) (by simp)

/-- Witness for C9 at a concrete keychain holding one locked vault (so
the emitted payload is its direct serialization). -/
theorem keychain_backup_non_destructive_witness :
    (⟨[.MultiKeyPair ⟨none, some ⟨List.replicate 16 2, [9], List.replicate 24 3⟩⟩],
      Observable.new ⟨[]⟩⟩ : Keychain).key_pairs =
    (⟨[.MultiKeyPair ⟨none, some ⟨List.replicate 16 2, [9], List.replicate 24 3⟩⟩],
      Observable.new ⟨[]⟩⟩ : Keychain).key_pairs ∧
    (⟨[.MultiKeyPair ⟨none, some ⟨List.replicate 16 2, [9], List.replicate 24 3⟩⟩],
      Observable.new ⟨[]⟩⟩ : Keychain).store =
    (⟨[.MultiKeyPair ⟨none, some ⟨List.replicate 16 2, [9], List.replicate 24 3⟩⟩],
      Observable.new ⟨[]⟩⟩ : Keychain).store ∧
    ∃ pairs : List (Nat × List Nat),
      (42 :: 0 :: 16 :: (List.replicate 16 2 ++ [9] ++ List.replicate 24 3) : List Nat)
        = (pairs.map (fun pr => pr.2.length :: pr.1 :: pr.2)).flatten ∧
      List.Forall₂ (fun (kp : KeyPair) (pr : Nat × List Nat) =>
        pr.1 = 0 ∧
        (kp.vault.is_unlocked = false → Vault.to_bytes kp.vault = .ok pr.2))
        (⟨[.MultiKeyPair ⟨none, some ⟨List.replicate 16 2, [9], List.replicate 24 3⟩⟩],
          Observable.new ⟨[]⟩⟩ : Keychain).key_pairs pairs :=
  keychain_backup_non_destructive
    ⟨fun _ _ msg => msg, fun _ _ c => some c⟩ (fun _ _ _ => [])
    ⟨[.MultiKeyPair ⟨none, some ⟨List.replicate 16 2, [9], List.replicate 24 3⟩⟩],
      Observable.new ⟨[]⟩⟩
    ⟨[.MultiKeyPair ⟨none, some ⟨List.replicate 16 2, [9], List.replicate 24 3⟩⟩],
      Observable.new ⟨[]⟩⟩
    [7] [] []
    (42 :: 0 :: 16 :: (List.replicate 16 2 ++ [9] ++ List.replicate 24 3))
    (fun _ _ _ => rfl)
    (by decide)
